import Mathlib

/-!
Verification of the awwwards scraper (`awwwards_scraper.py`) against its
specification.  The Python program is shallowly embedded: HTML parsing is
modelled by lists of anchors, the HTTP fetch capability by an oracle
`String → Except Unit (List Anchor)` (an `Except.error` models a
`requests.RequestException`), and the orchestrator's side effects (listing
fetches, detail fetches, sleeps) by an explicit event trace.
-/

/-- An anchor element of a parsed document: its optional `href` attribute and
its text content.  A parsed document is a list of anchors in document order
(the only queries the program performs are over anchor elements). -/
structure Anchor where
  href : Option String
  text : String
deriving DecidableEq

/-- Whether the first list of characters is a prefix of the second. -/
def isPrefixList : List Char → List Char → Bool
  | [], _ => true
  | _ :: _, [] => false
  | a :: as, b :: bs => a == b && isPrefixList as bs

/-- Whether `sub` occurs as a contiguous sublist of the second argument. -/
def containsList (sub : List Char) : List Char → Bool
  | [] => sub.isEmpty
  | c :: cs => isPrefixList sub (c :: cs) || containsList sub cs

/-- Python's substring test `sub in h`. -/
def containsSub (h sub : String) : Bool :=
  containsList sub.data h.data

/-- Python's `h.split("?")[0]`: the part of `h` before the first `?`. -/
def stripQuery (h : String) : String :=
  String.mk (h.data.takeWhile (fun c => c != '?'))

/-- `BASE_URL` from the source. -/
def BASE_URL : String := "https://www.awwwards.com"

/-- Whether `h` starts with a URI scheme (letters/digits/`+`/`-`/`.` before a
`:` that precedes any `/`), as `urllib.parse` recognises schemes. -/
def hasScheme (h : String) : Bool :=
  let pre := h.data.takeWhile (fun c => c != ':')
  pre.length < h.data.length &&
    (match pre with | c :: _ => c.isAlpha | [] => false) &&
    pre.all (fun c => c.isAlpha || c.isDigit || c = '+' || c = '-' || c = '.') &&
    !pre.contains '/'

/-- Model of `urllib.parse.urljoin` specialised to the fixed base
`https://www.awwwards.com` (scheme `https`, no path): a scheme-qualified
reference is returned unchanged, a protocol-relative reference gets the
base's scheme, an absolute-path reference is appended to the base, and a
relative reference is resolved against the base's empty path. -/
def urljoin (base h : String) : String :=
  if h = "" then base
  else if hasScheme h then h
  else if isPrefixList "//".data h.data then "https:" ++ h
  else if isPrefixList "/".data h.data then base ++ h
  else base ++ "/" ++ h

/-- The CSS selector `a[href*="/sites/"]` over a parsed document: anchors
having an `href` attribute that contains the marker as a substring. -/
def selectHrefSub (sub : String) (doc : List Anchor) : List Anchor :=
  doc.filter (fun a =>
    match a.href with
    | some h => containsSub h sub
    | none => false)

/-- The body of the anchor loop in `extract_site_links`: skip anchors whose
href is missing or empty or lacks the `/sites/` marker, otherwise emit the
href resolved against `BASE_URL` after dropping the query string. -/
def collectLinks : List Anchor → List String
  | [] => []
  | a :: rest =>
    match a.href with
    | none => collectLinks rest
    | some h =>
      if h = "" then collectLinks rest
      else if containsSub h "/sites/" then
        urljoin BASE_URL (stripQuery h) :: collectLinks rest
      else collectLinks rest

/-- The order-preserving dedup loop of `extract_site_links`: `seen` is the set
of already-emitted links. -/
def dedupGo (seen : List String) : List String → List String
  | [] => []
  | x :: xs => if x ∈ seen then dedupGo seen xs else x :: dedupGo (x :: seen) xs

/-- Order-preserving removal of duplicates, keeping first occurrences. -/
def dedupFirst (l : List String) : List String :=
  dedupGo [] l

/-- `extract_site_links` from the source: select anchors whose href contains
`/sites/`, build the resolved links, and deduplicate preserving order. -/
def extract_site_links (doc : List Anchor) : List String :=
  dedupFirst (collectLinks (selectHrefSub "/sites/" doc))

/-- Python's `str.strip()` (on the whitespace the label matching exercises):
drop leading and trailing whitespace characters. -/
def pyStrip (s : List Char) : List Char :=
  (((s.dropWhile Char.isWhitespace).reverse).dropWhile Char.isWhitespace).reverse

/-- Python's `str.lower()` restricted to the ASCII range the label matching
exercises. -/
def pyLower (s : List Char) : List Char :=
  s.map Char.toLower

/-- The matcher passed to `soup.find`: the anchor's text, stripped and
lowercased, equals `"visit site"`.  (An empty text is falsy in Python and
also fails the comparison, so the emptiness test is absorbed by the
equality.) -/
def visitMatch (a : Anchor) : Bool :=
  pyLower (pyStrip a.text.data) == "visit site".data

/-- `soup.find("a", string=...)`: the first anchor in document order whose
text matches. -/
def findVisit : List Anchor → Option Anchor
  | [] => none
  | a :: rest => if visitMatch a then some a else findVisit rest

/-- `extract_visit_site` from the source: the matched anchor's href attribute
(`None` when the anchor is absent or has no href). -/
def extract_visit_site (doc : List Anchor) : Option String :=
  match findVisit doc with
  | some a => a.href
  | none => none

/-- The characters following the first occurrence of `sub`, when present. -/
def afterMarker (sub : List Char) : List Char → Option (List Char)
  | [] => if sub.isEmpty then some [] else none
  | c :: cs =>
    if isPrefixList sub (c :: cs) then some ((c :: cs).drop sub.length)
    else afterMarker sub cs

/-- The path component of an absolute URL (everything after the host, before
any query or fragment); used to state the spec's "resolved reference path"
property. -/
def urlPath (u : String) : String :=
  let rest := (afterMarker "://".data u.data).getD u.data
  String.mk ((rest.dropWhile (fun c => c != '/')).takeWhile
    (fun c => c != '?' && c != '#'))

/-- One observable side effect of the crawl: a listing-page fetch, a
detail-page fetch, or a call to `time.sleep` with the given argument.
Floating-point delays are embedded as rationals (the program only tests the
delay for truthiness and passes it through). -/
inductive Ev where
  | listing (url : String)
  | detail (url : String)
  | sleep (d : ℚ)
deriving DecidableEq

/-- Result of a crawl: either the result map together with the event trace,
or an uncaught listing-page fetch exception (with the trace up to and
including the failed call). -/
inductive ScrapeOut where
  | ok (results : List (String × Option String)) (tr : List Ev)
  | fail (tr : List Ev)
deriving DecidableEq

/-- The trace of a crawl outcome. -/
def ScrapeOut.trace : ScrapeOut → List Ev
  | .ok _ tr => tr
  | .fail tr => tr

/-- The keys of the result map, in insertion order (Python dicts preserve
insertion order). -/
def keys (results : List (String × Option String)) : List String :=
  results.map Prod.fst

/-- `LISTING_TEMPLATE.format(page=page)` from the source. -/
def listingURL (page : Int) : String :=
  "https://www.awwwards.com/websites/?page=" ++ toString page

/-- Python's truthiness test `if max_sites and len(results) >= max_sites`:
`None` and `0` are falsy. -/
def capHit (max_sites : Option Int) (n : Nat) : Bool :=
  match max_sites with
  | none => false
  | some m => m != 0 && decide ((n : Int) ≥ m)

/-- The body of the `try`/`except` around a detail fetch: on success the
extracted Visit-Site link, on a `RequestException` `None`. -/
def detailEntry (fetch : String → Except Unit (List Anchor)) (url : String) :
    Option String :=
  match fetch url with
  | .ok doc => extract_visit_site doc
  | .error _ => none

/-- Python's `if delay: time.sleep(delay)`: append a sleep event exactly when
the delay is nonzero (truthy). -/
def addSleep (delay : ℚ) (tr : List Ev) : List Ev :=
  if delay ≠ 0 then tr ++ [Ev.sleep delay] else tr

/-- The inner loop of `scrape_awwwards` over the detail URLs of one listing
page.  Returns the updated result map, the updated trace, and whether the
`max_sites` early `return` fired. -/
def runSites (fetch : String → Except Unit (List Anchor)) (delay : ℚ)
    (max_sites : Option Int) :
    List String → List (String × Option String) → List Ev →
    List (String × Option String) × List Ev × Bool
  | [], results, tr => (results, tr, false)
  | url :: rest, results, tr =>
    if url ∈ keys results then
      runSites fetch delay max_sites rest results tr
    else
      let results1 := results ++ [(url, detailEntry fetch url)]
      let tr1 := addSleep delay (tr ++ [Ev.detail url])
      if capHit max_sites results1.length then (results1, tr1, true)
      else runSites fetch delay max_sites rest results1 tr1

/-- The outer loop of `scrape_awwwards` over the requested pages.  A failing
listing fetch is not caught and aborts the crawl. -/
def runPages (fetch : String → Except Unit (List Anchor)) (delay : ℚ)
    (max_sites : Option Int) :
    List Int → List (String × Option String) → List Ev → ScrapeOut
  | [], results, tr => .ok results tr
  | page :: rest, results, tr =>
    let tr1 := tr ++ [Ev.listing (listingURL page)]
    match fetch (listingURL page) with
    | .error _ => .fail tr1
    | .ok doc =>
      let o := runSites fetch delay max_sites (extract_site_links doc) results tr1
      if o.2.2 then .ok o.1 o.2.1
      else runPages fetch delay max_sites rest o.1 o.2.1

/-- `scrape_awwwards` from the source, parameterised by the fetch oracle. -/
def scrape_awwwards (fetch : String → Except Unit (List Anchor))
    (pages : List Int) (delay : ℚ) (max_sites : Option Int) : ScrapeOut :=
  runPages fetch delay max_sites pages [] []

/-- Outcome of a `main` run: the page-range usage error (message printed to
standard error, exit code 1), a finished crawl (results written out, exit
code 0), or an uncaught exception propagating out of the crawl (the
interpreter exits nonzero). -/
inductive MainOut where
  | usageError (msg : String)
  | finished (results : List (String × Option String))
  | crashed (tr : List Ev)
deriving DecidableEq

/-- The process exit code of each `main` outcome (an uncaught Python
exception terminates the process with code 1). -/
def exitCode : MainOut → Int
  | .usageError _ => 1
  | .finished _ => 0
  | .crashed _ => 1

/-- Python's `range(s, e + 1)` as a list of integers. -/
def pageRange (s e : Int) : List Int :=
  (List.range (e + 1 - s).toNat).map (fun i => s + i)

/-- `main` from the source, after argument parsing: validate the page range,
then crawl and report.  `end_page = none` models an omitted `--end-page`. -/
def main_model (fetch : String → Except Unit (List Anchor)) (start_page : Int)
    (end_page : Option Int) (delay : ℚ) (max_sites : Option Int) : MainOut :=
  let endP := end_page.getD start_page
  if start_page < 1 ∨ endP < start_page then
    .usageError "Invalid page range provided."
  else
    match scrape_awwwards fetch (pageRange start_page endP) delay max_sites with
    | .ok r _ => .finished r
    | .fail tr => .crashed tr

/-- The detail-fetch events of a trace, in order. -/
def detailUrls : List Ev → List String
  | [] => []
  | Ev.detail u :: rest => u :: detailUrls rest
  | _ :: rest => detailUrls rest

/-- The number of sleep events in a trace. -/
def sleepCount (tr : List Ev) : Nat :=
  tr.countP (fun e => match e with | Ev.sleep _ => true | _ => false)

/-- Test fixture: a listing document whose anchors carry the given hrefs. -/
def pageDoc (hs : List String) : List Anchor :=
  hs.map (fun h => { href := some h, text := "thumb" })

/-- Test fixture: a fetch oracle serving the given listing documents by URL,
an empty document for every other URL (so detail pages have no Visit-Site
anchor), and a `RequestException` for URLs in `bad`. -/
def mkFetch (bad : List String) (pages : List (String × List String)) :
    String → Except Unit (List Anchor) :=
  fun u =>
    if u ∈ bad then .error ()
    else
      match pages.lookup u with
      | some hs => .ok (pageDoc hs)
      | none => .ok []

/-- Fixture for the cap claims: pages 1 and 2 carry five distinct detail
URLs. -/
def fetchFive : String → Except Unit (List Anchor) :=
  mkFetch []
    [(listingURL 1, ["/sites/a", "/sites/b", "/sites/c"]),
     (listingURL 2, ["/sites/d", "/sites/e"])]

/-- Fixture for the dedup claim: `/sites/b` appears on pages 1 and 2. -/
def fetchDup : String → Except Unit (List Anchor) :=
  mkFetch []
    [(listingURL 1, ["/sites/a", "/sites/b"]),
     (listingURL 2, ["/sites/b", "/sites/c"])]

/-- Fixture for failure isolation: the detail fetch of `/sites/a` fails. -/
def fetchDetailFail : String → Except Unit (List Anchor) :=
  mkFetch ["https://www.awwwards.com/sites/a"]
    [(listingURL 1, ["/sites/a", "/sites/b"])]

/-- Fixture for one page with a single detail URL. -/
def fetchOne : String → Except Unit (List Anchor) :=
  mkFetch [] [(listingURL 1, ["/sites/a"])]

/-- Fixture whose every fetch fails. -/
def fetchAllFail : String → Except Unit (List Anchor) :=
  fun _ => .error ()

/-- The number of occurrences of `u` in a list of strings. -/
def countOcc (u : String) : List String → Nat
  | [] => 0
  | x :: xs => (if x = u then 1 else 0) + countOcc u xs

/-- The crawl-loop invariant tying the result map to the event trace: the
detail-fetch events are exactly the map's keys in order (so each key was
fetched exactly once and each detail fetch produced a key), the keys are
pairwise distinct, a sleep event follows every insertion exactly when the
delay is truthy, every sleep event carries the configured delay, and every
entry whose fetch fails holds `none`. -/
def goodTrace (fetch : String → Except Unit (List Anchor)) (delay : ℚ)
    (results : List (String × Option String)) (tr : List Ev) : Prop :=
  detailUrls tr = keys results
  ∧ (keys results).Nodup
  ∧ sleepCount tr = (if delay = 0 then 0 else results.length)
  ∧ (∀ d, Ev.sleep d ∈ tr → d = delay)
  ∧ (∀ url v, (url, v) ∈ results → fetch url = Except.error () → v = none)

/-- The invariant carried to a crawl outcome: the full invariant on success,
and distinctness of the detail events plus the sleep-argument property on an
aborted crawl (whose partial map is discarded). -/
def outGood (fetch : String → Except Unit (List Anchor)) (delay : ℚ) :
    ScrapeOut → Prop
  | .ok r tr => goodTrace fetch delay r tr
  | .fail tr => (detailUrls tr).Nodup ∧ (∀ d, Ev.sleep d ∈ tr → d = delay)

theorem dedupGo_sublist (l : List String) : ∀ seen, (dedupGo seen l).Sublist l := by
  induction l with
  | nil => intro seen; simp [dedupGo]
  | cons x xs ih =>
    intro seen
    by_cases hx : x ∈ seen
    · simpa [dedupGo, hx] using ((ih seen).cons x)
    · simpa [dedupGo, hx] using (ih (x :: seen)).cons₂ x

theorem dedupGo_nodup (l : List String) :
    ∀ seen, (dedupGo seen l).Nodup ∧ ∀ x ∈ dedupGo seen l, x ∉ seen := by
  induction l with
  | nil => intro seen; simp [dedupGo]
  | cons x xs ih =>
    intro seen
    by_cases hx : x ∈ seen
    · simpa [dedupGo, hx] using ih seen
    · obtain ⟨hnd, hout⟩ := ih (x :: seen)
      have hstep : dedupGo seen (x :: xs) = x :: dedupGo (x :: seen) xs := by
        simp [dedupGo, hx]
      rw [hstep]
      refine ⟨List.nodup_cons.2 ⟨fun hmem => (hout x hmem) (List.mem_cons_self x seen), hnd⟩, ?_⟩
      intro y hy
      rcases List.mem_cons.1 hy with rfl | hy'
      · exact hx
      · exact fun hys => (hout y hy') (List.mem_cons_of_mem x hys)

theorem mem_dedupGo (l : List String) :
    ∀ seen x, x ∈ l → x ∉ seen → x ∈ dedupGo seen l := by
  induction l with
  | nil => intro seen x hx; simp at hx
  | cons y ys ih =>
    intro seen x hx hseen
    rcases List.mem_cons.1 hx with rfl | hx'
    · simp [dedupGo, hseen]
    · by_cases hy : y ∈ seen
      · simpa [dedupGo, hy] using ih seen x hx' hseen
      · by_cases hxy : x = y
        · subst hxy; simp [dedupGo, hy]
        · have hstep : dedupGo seen (y :: ys) = y :: dedupGo (y :: seen) ys := by
            simp [dedupGo, hy]
          rw [hstep]
          exact List.mem_cons_of_mem y (ih (y :: seen) x hx' (by simp [hseen, hxy]))

theorem dedupGo_congr (l : List String) :
    ∀ seen₁ seen₂, (∀ y, y ∈ seen₁ ↔ y ∈ seen₂) →
      dedupGo seen₁ l = dedupGo seen₂ l := by
  induction l with
  | nil => intro seen₁ seen₂ _; simp [dedupGo]
  | cons x xs ih =>
    intro seen₁ seen₂ hiff
    by_cases hx : x ∈ seen₁
    · simp [dedupGo, hx, (hiff x).1 hx, ih seen₁ seen₂ hiff]
    · have hx₂ : x ∉ seen₂ := fun h => hx ((hiff x).2 h)
      simp only [dedupGo, hx, hx₂, if_neg]
      have : ∀ y, y ∈ x :: seen₁ ↔ y ∈ x :: seen₂ := by
        intro y; simp [hiff y]
      simp [ih (x :: seen₁) (x :: seen₂) this]

theorem dedupGo_cons_filter (l : List String) :
    ∀ seen a, dedupGo (a :: seen) l = dedupGo seen (l.filter (fun y => y != a)) := by
  induction l with
  | nil => intro seen a; simp [dedupGo]
  | cons y ys ih =>
    intro seen a
    by_cases hya : y = a
    · subst hya
      have h1 : dedupGo (y :: seen) (y :: ys) = dedupGo (y :: seen) ys := by
        simp [dedupGo]
      have h2 : List.filter (fun z => z != y) (y :: ys)
          = List.filter (fun z => z != y) ys := by
        simp [List.filter_cons]
      rw [h1, h2, ih seen y]
    · have hfilter : List.filter (fun z => z != a) (y :: ys)
          = y :: List.filter (fun z => z != a) ys := by
        simp [List.filter_cons, hya]
      by_cases hys : y ∈ seen
      · have h1 : dedupGo (a :: seen) (y :: ys) = dedupGo (a :: seen) ys := by
          simp [dedupGo, hys]
        have h2 : dedupGo seen (y :: List.filter (fun z => z != a) ys)
            = dedupGo seen (List.filter (fun z => z != a) ys) := by
          simp [dedupGo, hys]
        rw [h1, hfilter, h2, ih seen a]
      · have hmem : y ∉ a :: seen := by simp [hya, hys]
        have h1 : dedupGo (a :: seen) (y :: ys) = y :: dedupGo (y :: a :: seen) ys := by
          simp [dedupGo, hmem]
        have h2 : dedupGo seen (y :: List.filter (fun z => z != a) ys)
            = y :: dedupGo (y :: seen) (List.filter (fun z => z != a) ys) := by
          simp [dedupGo, hys]
        have h3 : dedupGo (y :: a :: seen) ys = dedupGo (a :: y :: seen) ys :=
          dedupGo_congr ys _ _ (by intro z; constructor <;> (intro hz; simp at hz ⊢; tauto))
        rw [h1, hfilter, h2, h3, ih (y :: seen) a]

theorem mem_collectLinks (l : List Anchor) (u : String) (hu : u ∈ collectLinks l) :
    ∃ a ∈ l, ∃ h, a.href = some h ∧ h ≠ "" ∧ containsSub h "/sites/" = true ∧
      u = urljoin BASE_URL (stripQuery h) := by
  induction l with
  | nil => simp [collectLinks] at hu
  | cons a rest ih =>
    match ha : a.href with
    | none =>
      rw [collectLinks, ha] at hu
      obtain ⟨b, hb, w⟩ := ih hu
      exact ⟨b, List.mem_cons_of_mem a hb, w⟩
    | some h =>
      simp only [collectLinks, ha] at hu
      by_cases hne : h = ""
      · rw [if_pos hne] at hu
        obtain ⟨b, hb, w⟩ := ih hu
        exact ⟨b, List.mem_cons_of_mem a hb, w⟩
      · rw [if_neg hne] at hu
        by_cases hcs : containsSub h "/sites/" = true
        · rw [if_pos hcs] at hu
          rcases List.mem_cons.1 hu with rfl | hu'
          · exact ⟨a, List.mem_cons_self a rest, h, ha, hne, hcs, rfl⟩
          · obtain ⟨b, hb, w⟩ := ih hu'
            exact ⟨b, List.mem_cons_of_mem a hb, w⟩
        · rw [if_neg hcs] at hu
          obtain ⟨b, hb, w⟩ := ih hu
          exact ⟨b, List.mem_cons_of_mem a hb, w⟩

theorem mem_extract_site_links (doc : List Anchor) (u : String)
    (hu : u ∈ extract_site_links doc) :
    ∃ a ∈ doc, ∃ h, a.href = some h ∧ h ≠ "" ∧ containsSub h "/sites/" = true ∧
      u = urljoin BASE_URL (stripQuery h) := by
  have h1 : u ∈ collectLinks (selectHrefSub "/sites/" doc) :=
    (dedupGo_sublist _ []).subset hu
  obtain ⟨a, ha, w⟩ := mem_collectLinks _ u h1
  exact ⟨a, (List.mem_filter.1 ha).1, w⟩

theorem extract_site_links_skip (a : Anchor) (doc : List Anchor)
    (h : a.href = none ∨ a.href = some "") :
    extract_site_links (a :: doc) = extract_site_links doc := by
  have hsel : selectHrefSub "/sites/" (a :: doc) = selectHrefSub "/sites/" doc := by
    have hfalse : containsSub "" "/sites/" = false := by decide
    rcases h with h | h <;> simp [selectHrefSub, List.filter_cons, h, hfalse]
  simp [extract_site_links, hsel]

/-- C7: the sequence returned by `extract_site_links` has no duplicates, is an
order-preserving subsequence of the links collected from the matching anchors
(first occurrences kept, per the filter characterisation of `dedupFirst`),
contains exactly the collected links, is empty when no anchor matches the
selector, and silently skips anchors with a missing or empty href. -/
theorem extract_site_links_nodup_order_empty (doc : List Anchor) :
    (extract_site_links doc).Nodup
    ∧ (extract_site_links doc).Sublist (collectLinks (selectHrefSub "/sites/" doc))
    ∧ (∀ u, u ∈ extract_site_links doc ↔ u ∈ collectLinks (selectHrefSub "/sites/" doc))
    ∧ (∀ x xs, dedupFirst (x :: xs) = x :: dedupFirst (xs.filter (fun y => y != x)))
    ∧ (selectHrefSub "/sites/" doc = [] → extract_site_links doc = [])
    ∧ (∀ a doc2, (a.href = none ∨ a.href = some "") →
        extract_site_links (a :: doc2) = extract_site_links doc2) := by
  refine ⟨(dedupGo_nodup _ []).1, dedupGo_sublist _ [], ?_, ?_, ?_, ?_⟩
  · intro u
    exact ⟨fun hu => (dedupGo_sublist _ []).subset hu,
      fun hu => mem_dedupGo _ [] u hu (by simp)⟩
  · intro x xs
    have h1 : dedupFirst (x :: xs) = x :: dedupGo [x] xs := by
      simp [dedupFirst, dedupGo]
    rw [h1, dedupGo_cons_filter xs [] x]
    rfl
  · intro hsel
    simp [extract_site_links, hsel, collectLinks, dedupFirst, dedupGo]
  · exact fun a doc2 h => extract_site_links_skip a doc2 h

/-- C7 witness: a document whose only anchor lacks the marker yields the
empty sequence, and an anchor with a missing href is skipped. -/
theorem extract_site_links_nodup_order_empty_witness :
    extract_site_links [{ href := some "/x", text := "t" }] = []
    ∧ extract_site_links
        [{ href := none, text := "t" }, { href := some "/sites/1", text := "t" }]
      = extract_site_links [{ href := some "/sites/1", text := "t" }] :=
  ⟨(extract_site_links_nodup_order_empty _).2.2.2.2.1 (by decide),
   (extract_site_links_nodup_order_empty []).2.2.2.2.2
     { href := none, text := "t" } [{ href := some "/sites/1", text := "t" }]
     (Or.inl rfl)⟩

/-- C4 counterexample: the anchor `/about?next=/sites/42` carries the marker
only inside its query string; it is nevertheless selected, and the emitted
URL's resolved reference path `/about` does not contain `/sites/`. -/
theorem extract_site_links_path_marker_cex :
    extract_site_links [{ href := some "/about?next=/sites/42", text := "x" }]
      = ["https://www.awwwards.com/about"]
    ∧ containsSub (urlPath "https://www.awwwards.com/about") "/sites/" = false := by
  exact ⟨by decide, by decide⟩

/-- C4 amended: every URL returned by `extract_site_links` comes from an
anchor whose raw href contains `/sites/` as a substring (possibly inside the
query string); the selection tests the raw href, not the resolved path. -/
theorem extract_site_links_href_marker (doc : List Anchor) (u : String)
    (hu : u ∈ extract_site_links doc) :
    ∃ a ∈ doc, ∃ h, a.href = some h ∧ containsSub h "/sites/" = true ∧
      u = urljoin BASE_URL (stripQuery h) := by
  obtain ⟨a, ha, h, h1, _, h3, h4⟩ := mem_extract_site_links doc u hu
  exact ⟨a, ha, h, h1, h3, h4⟩

/-- C4 amended witness. -/
theorem extract_site_links_href_marker_witness :
    ∃ a ∈ [({ href := some "/sites/1", text := "t" } : Anchor)], ∃ h,
      a.href = some h ∧ containsSub h "/sites/" = true ∧
      "https://www.awwwards.com/sites/1" = urljoin BASE_URL (stripQuery h) :=
  extract_site_links_href_marker _ _ (by decide)

/-- C6: a matching href is resolved against the fixed base after truncation
at the first `?`; `/sites/42?ref=home` yields `BASE/sites/42`, absolute and
relative hrefs go through the same resolution, and every emitted URL is the
resolution of some anchor's query-stripped href. -/
theorem extract_site_links_resolve_strip (doc : List Anchor) :
    extract_site_links [{ href := some "/sites/42?ref=home", text := "t" }]
      = ["https://www.awwwards.com/sites/42"]
    ∧ stripQuery "/sites/42?ref=home" = "/sites/42"
    ∧ urljoin BASE_URL "/sites/42" = "https://www.awwwards.com/sites/42"
    ∧ urljoin BASE_URL "https://www.awwwards.com/sites/42"
      = "https://www.awwwards.com/sites/42"
    ∧ ∀ u, u ∈ extract_site_links doc →
        ∃ a ∈ doc, ∃ h, a.href = some h ∧ u = urljoin BASE_URL (stripQuery h) := by
  refine ⟨by decide, by decide, by decide, by decide, ?_⟩
  intro u hu
  obtain ⟨a, ha, h, h1, _, _, h4⟩ := mem_extract_site_links doc u hu
  exact ⟨a, ha, h, h1, h4⟩

/-- C6 witness. -/
theorem extract_site_links_resolve_strip_witness :
    ∃ a ∈ [({ href := some "/sites/1?q=2", text := "t" } : Anchor)], ∃ h,
      a.href = some h ∧ "https://www.awwwards.com/sites/1" = urljoin BASE_URL (stripQuery h) :=
  (extract_site_links_resolve_strip _).2.2.2.2 "https://www.awwwards.com/sites/1" (by decide)

theorem findVisit_eq_some (doc : List Anchor) :
    ∀ a, findVisit doc = some a →
      ∃ pre post, doc = pre ++ a :: post ∧ (∀ b ∈ pre, visitMatch b = false) ∧
        visitMatch a = true := by
  induction doc with
  | nil => intro a h; simp [findVisit] at h
  | cons c rest ih =>
    intro a h
    by_cases hc : visitMatch c = true
    · rw [findVisit, if_pos hc] at h
      obtain rfl : c = a := by injection h
      exact ⟨[], rest, rfl, by simp, hc⟩
    · rw [findVisit, if_neg hc] at h
      obtain ⟨pre, post, hdoc, hpre, ha⟩ := ih a h
      refine ⟨c :: pre, post, by simp [hdoc], ?_, ha⟩
      intro b hb
      rcases List.mem_cons.1 hb with rfl | hb'
      · exact Bool.eq_false_iff.2 hc
      · exact hpre b hb'

theorem findVisit_eq_none (doc : List Anchor)
    (h : ∀ a ∈ doc, visitMatch a = false) : findVisit doc = none := by
  induction doc with
  | nil => simp [findVisit]
  | cons c rest ih =>
    have hc : visitMatch c = false := h c (List.mem_cons_self c rest)
    rw [findVisit, if_neg (by simp [hc])]
    exact ih (fun a ha => h a (List.mem_cons_of_mem c ha))

theorem findVisit_first (pre : List Anchor) :
    ∀ a post, (∀ b ∈ pre, visitMatch b = false) → visitMatch a = true →
      findVisit (pre ++ a :: post) = some a := by
  induction pre with
  | nil => intro a post _ ha; simp [findVisit, ha]
  | cons c rest ih =>
    intro a post hpre ha
    have hc : visitMatch c = false := hpre c (List.mem_cons_self c rest)
    rw [List.cons_append, findVisit, if_neg (by simp [hc])]
    exact ih a post (fun b hb => hpre b (List.mem_cons_of_mem c hb)) ha

/-- C5: `extract_visit_site` returns the href attribute, verbatim, of the
first anchor in document order whose stripped, lowercased text is exactly
`visit site` (so `"  Visit Site  "`, `"VISIT SITE"` and `"visit site"` match
identically), and returns `none` when no anchor matches or when the first
matching anchor has no href. -/
theorem extract_visit_site_first_label_match (doc : List Anchor) :
    (∀ h, extract_visit_site doc = some h →
      ∃ pre a post, doc = pre ++ a :: post ∧ (∀ b ∈ pre, visitMatch b = false) ∧
        visitMatch a = true ∧ a.href = some h)
    ∧ ((∀ a ∈ doc, visitMatch a = false) → extract_visit_site doc = none)
    ∧ (∀ pre a post, doc = pre ++ a :: post → (∀ b ∈ pre, visitMatch b = false) →
        visitMatch a = true → extract_visit_site doc = a.href)
    ∧ (∀ h : Option String,
        extract_visit_site [{ href := h, text := "  Visit Site  " }] = h
        ∧ extract_visit_site [{ href := h, text := "VISIT SITE" }] = h
        ∧ extract_visit_site [{ href := h, text := "visit site" }] = h) := by
  refine ⟨?_, ?_, ?_, ?_⟩
  · intro h hh
    unfold extract_visit_site at hh
    match hfv : findVisit doc with
    | none => rw [hfv] at hh; simp at hh
    | some a =>
      rw [hfv] at hh
      obtain ⟨pre, post, hdoc, hpre, ha⟩ := findVisit_eq_some doc a hfv
      exact ⟨pre, a, post, hdoc, hpre, ha, hh⟩
  · intro hall
    unfold extract_visit_site
    rw [findVisit_eq_none doc hall]
  · intro pre a post hdoc hpre ha
    unfold extract_visit_site
    rw [hdoc, findVisit_first pre a post hpre ha]
  · intro h
    refine ⟨?_, ?_, ?_⟩ <;>
      simp [extract_visit_site, findVisit, visitMatch, pyStrip, pyLower]

/-- C5 witness: in a document whose second anchor is the first label match,
the returned link is that anchor's href. -/
theorem extract_visit_site_first_label_match_witness :
    ∃ pre a post,
      [({ href := some "u1", text := "nope" } : Anchor),
       { href := some "u2", text := " VISIT site " }] = pre ++ a :: post
      ∧ (∀ b ∈ pre, visitMatch b = false) ∧ visitMatch a = true ∧ a.href = some "u2" :=
  (extract_visit_site_first_label_match _).1 "u2" (by decide)

theorem countOcc_eq_zero_of_not_mem {u : String} {l : List String} (h : u ∉ l) :
    countOcc u l = 0 := by
  induction l with
  | nil => rfl
  | cons x xs ih =>
    have hxu : ¬ x = u := fun he => h (he ▸ List.mem_cons_self x xs)
    simp only [countOcc, if_neg hxu, Nat.zero_add]
    exact ih (fun hm => h (List.mem_cons_of_mem x hm))

theorem countOcc_le_one_of_nodup {u : String} {l : List String} (h : l.Nodup) :
    countOcc u l ≤ 1 := by
  induction l with
  | nil => simp [countOcc]
  | cons x xs ih =>
    obtain ⟨hx, hxs⟩ := List.nodup_cons.1 h
    by_cases hxu : x = u
    · subst hxu
      simp [countOcc, countOcc_eq_zero_of_not_mem hx]
    · simp only [countOcc, if_neg hxu, Nat.zero_add]
      exact ih hxs

theorem countOcc_eq_one_iff_mem {u : String} {l : List String} (h : l.Nodup) :
    u ∈ l ↔ countOcc u l = 1 := by
  induction l with
  | nil => simp [countOcc]
  | cons x xs ih =>
    obtain ⟨hx, hxs⟩ := List.nodup_cons.1 h
    by_cases hxu : x = u
    · subst hxu
      simp [countOcc, countOcc_eq_zero_of_not_mem hx]
    · simp only [countOcc, if_neg hxu, Nat.zero_add, List.mem_cons]
      constructor
      · rintro (rfl | hm)
        · exact absurd rfl hxu
        · exact (ih hxs).1 hm
      · intro hc
        exact Or.inr ((ih hxs).2 hc)

theorem detailUrls_append (a b : List Ev) :
    detailUrls (a ++ b) = detailUrls a ++ detailUrls b := by
  induction a with
  | nil => simp [detailUrls]
  | cons e rest ih => cases e <;> simp [detailUrls, ih]

theorem detailUrls_addSleep (delay : ℚ) (tr : List Ev) :
    detailUrls (addSleep delay tr) = detailUrls tr := by
  unfold addSleep
  split
  · rw [detailUrls_append]; simp [detailUrls]
  · rfl

theorem sleepCount_append (a b : List Ev) :
    sleepCount (a ++ b) = sleepCount a + sleepCount b :=
  List.countP_append _ a b

theorem goodTrace_insert (fetch : String → Except Unit (List Anchor)) (delay : ℚ)
    (results : List (String × Option String)) (tr : List Ev) (url : String)
    (h : goodTrace fetch delay results tr) (hmem : url ∉ keys results) :
    goodTrace fetch delay (results ++ [(url, detailEntry fetch url)])
      (addSleep delay (tr ++ [Ev.detail url])) := by
  obtain ⟨h1, h2, h3, h4, h5⟩ := h
  refine ⟨?_, ?_, ?_, ?_, ?_⟩
  · rw [detailUrls_addSleep, detailUrls_append, h1]
    simp [keys, detailUrls]
  · simp only [keys, List.map_append, List.map_cons, List.map_nil]
    refine List.nodup_append.2 ⟨h2, List.nodup_singleton url, fun x hx hx' => ?_⟩
    have hxu : x = url := by simpa using hx'
    subst hxu
    exact hmem hx
  · by_cases hd : delay = 0
    · have ha : addSleep delay (tr ++ [Ev.detail url]) = tr ++ [Ev.detail url] := by
        simp [addSleep, hd]
      rw [ha, sleepCount_append]
      have h0 : sleepCount [Ev.detail url] = 0 := rfl
      rw [h0, h3]
      simp [hd]
    · have ha : addSleep delay (tr ++ [Ev.detail url])
          = (tr ++ [Ev.detail url]) ++ [Ev.sleep delay] := by
        simp [addSleep, hd]
      rw [ha, sleepCount_append, sleepCount_append]
      have h0 : sleepCount [Ev.detail url] = 0 := rfl
      have h1' : sleepCount [Ev.sleep delay] = 1 := rfl
      rw [h0, h1', h3]
      simp [hd]
  · intro d hd
    unfold addSleep at hd
    split at hd
    · rcases List.mem_append.1 hd with hd' | hd'
      · rcases List.mem_append.1 hd' with h'' | h''
        · exact h4 d h''
        · simp at h''
      · simpa using hd'
    · rcases List.mem_append.1 hd with h'' | h''
      · exact h4 d h''
      · simp at h''
  · intro url' v' hmem' hferr
    rcases List.mem_append.1 hmem' with h' | h'
    · exact h5 url' v' h' hferr
    · have h'' : url' = url ∧ v' = detailEntry fetch url := by simpa using h'
      obtain ⟨he1, he2⟩ := h''
      subst he1
      subst he2
      unfold detailEntry
      rw [hferr]

theorem runSites_good (fetch : String → Except Unit (List Anchor)) (delay : ℚ)
    (ms : Option Int) :
    ∀ sites results tr, goodTrace fetch delay results tr →
      goodTrace fetch delay (runSites fetch delay ms sites results tr).1
        (runSites fetch delay ms sites results tr).2.1 := by
  intro sites
  induction sites with
  | nil => intro results tr h; simpa [runSites] using h
  | cons url rest ih =>
    intro results tr h
    by_cases hmem : url ∈ keys results
    · have hstep : runSites fetch delay ms (url :: rest) results tr
          = runSites fetch delay ms rest results tr := by
        simp [runSites, hmem]
      rw [hstep]
      exact ih results tr h
    · have hins := goodTrace_insert fetch delay results tr url h hmem
      by_cases hcap : capHit ms (results.length + 1) = true
      · have hstep : runSites fetch delay ms (url :: rest) results tr
            = (results ++ [(url, detailEntry fetch url)],
               addSleep delay (tr ++ [Ev.detail url]), true) := by
          simp [runSites, hmem, hcap]
        rw [hstep]
        exact hins
      · have hstep : runSites fetch delay ms (url :: rest) results tr
            = runSites fetch delay ms rest (results ++ [(url, detailEntry fetch url)])
                (addSleep delay (tr ++ [Ev.detail url])) := by
          simp [runSites, hmem, hcap]
        rw [hstep]
        exact ih _ _ hins

theorem goodTrace_listing (fetch : String → Except Unit (List Anchor)) (delay : ℚ)
    (results : List (String × Option String)) (tr : List Ev) (page : Int)
    (h : goodTrace fetch delay results tr) :
    goodTrace fetch delay results (tr ++ [Ev.listing (listingURL page)]) := by
  obtain ⟨h1, h2, h3, h4, h5⟩ := h
  refine ⟨?_, h2, ?_, ?_, h5⟩
  · rw [detailUrls_append, h1]
    simp [detailUrls]
  · rw [sleepCount_append]
    have h0 : sleepCount [Ev.listing (listingURL page)] = 0 := rfl
    rw [h0, h3]
    exact Nat.add_zero _
  · intro d hd
    rcases List.mem_append.1 hd with h' | h'
    · exact h4 d h'
    · simp at h'

theorem runPages_good (fetch : String → Except Unit (List Anchor)) (delay : ℚ)
    (ms : Option Int) :
    ∀ pages results tr, goodTrace fetch delay results tr →
      outGood fetch delay (runPages fetch delay ms pages results tr) := by
  intro pages
  induction pages with
  | nil => intro results tr h; simpa [runPages, outGood] using h
  | cons page rest ih =>
    intro results tr h
    have hlist := goodTrace_listing fetch delay results tr page h
    cases hf : fetch (listingURL page) with
    | error e =>
      have hstep : runPages fetch delay ms (page :: rest) results tr
          = ScrapeOut.fail (tr ++ [Ev.listing (listingURL page)]) := by
        simp [runPages, hf]
      rw [hstep]
      refine ⟨?_, hlist.2.2.2.1⟩
      rw [hlist.1]
      exact hlist.2.1
    | ok doc =>
      have hs := runSites_good fetch delay ms (extract_site_links doc) results
        (tr ++ [Ev.listing (listingURL page)]) hlist
      have hstep : runPages fetch delay ms (page :: rest) results tr
          = (if (runSites fetch delay ms (extract_site_links doc) results
                  (tr ++ [Ev.listing (listingURL page)])).2.2 then
               ScrapeOut.ok
                 (runSites fetch delay ms (extract_site_links doc) results
                   (tr ++ [Ev.listing (listingURL page)])).1
                 (runSites fetch delay ms (extract_site_links doc) results
                   (tr ++ [Ev.listing (listingURL page)])).2.1
             else
               runPages fetch delay ms rest
                 (runSites fetch delay ms (extract_site_links doc) results
                   (tr ++ [Ev.listing (listingURL page)])).1
                 (runSites fetch delay ms (extract_site_links doc) results
                   (tr ++ [Ev.listing (listingURL page)])).2.1) := by
        simp [runPages, hf]
      rw [hstep]
      by_cases he : (runSites fetch delay ms (extract_site_links doc) results
          (tr ++ [Ev.listing (listingURL page)])).2.2 = true
      · rw [if_pos he]
        exact hs
      · rw [if_neg he]
        exact ih _ _ hs

theorem goodTrace_nil (fetch : String → Except Unit (List Anchor)) (delay : ℚ) :
    goodTrace fetch delay [] [] := by
  refine ⟨rfl, List.nodup_nil, ?_, ?_, ?_⟩
  · have h0 : sleepCount [] = 0 := rfl
    rw [h0]
    split <;> rfl
  · intro d hd
    simp at hd
  · intro url v hmem
    simp at hmem

theorem scrape_good (fetch : String → Except Unit (List Anchor))
    (pages : List Int) (delay : ℚ) (ms : Option Int) :
    outGood fetch delay (scrape_awwwards fetch pages delay ms) :=
  runPages_good fetch delay ms pages [] [] (goodTrace_nil fetch delay)

/-- C3: over any crawl run every detail URL is fetched at most once; on a
completed crawl the result map's keys are pairwise distinct (one entry per
URL) and a URL is a key exactly when its detail page was fetched exactly
once — so a URL discovered on several listing pages is fetched once and has
one entry. -/
theorem scrape_awwwards_dedup_once (fetch : String → Except Unit (List Anchor))
    (pages : List Int) (delay : ℚ) (ms : Option Int) (u : String) :
    countOcc u (detailUrls (ScrapeOut.trace (scrape_awwwards fetch pages delay ms))) ≤ 1
    ∧ ∀ r tr, scrape_awwwards fetch pages delay ms = ScrapeOut.ok r tr →
        (keys r).Nodup ∧ (u ∈ keys r ↔ countOcc u (detailUrls tr) = 1) := by
  have hg := scrape_good fetch pages delay ms
  constructor
  · cases hout : scrape_awwwards fetch pages delay ms with
    | ok r tr =>
      rw [hout] at hg
      have hg' : goodTrace fetch delay r tr := hg
      have hnd : (detailUrls tr).Nodup := by rw [hg'.1]; exact hg'.2.1
      simpa [ScrapeOut.trace] using countOcc_le_one_of_nodup hnd
    | fail tr =>
      rw [hout] at hg
      have hnd : (detailUrls tr).Nodup := hg.1
      simpa [ScrapeOut.trace] using countOcc_le_one_of_nodup hnd
  · intro r tr hout
    rw [hout] at hg
    have hg' : goodTrace fetch delay r tr := hg
    refine ⟨hg'.2.1, ?_⟩
    rw [hg'.1]
    exact countOcc_eq_one_iff_mem hg'.2.1

/-- C3 witness: `/sites/b` appears on both fixture pages, is fetched once,
and has exactly one entry. -/
theorem scrape_awwwards_dedup_once_witness :
    (keys [("https://www.awwwards.com/sites/a", (none : Option String)),
           ("https://www.awwwards.com/sites/b", none),
           ("https://www.awwwards.com/sites/c", none)]).Nodup
    ∧ ("https://www.awwwards.com/sites/b"
         ∈ keys [("https://www.awwwards.com/sites/a", (none : Option String)),
                 ("https://www.awwwards.com/sites/b", none),
                 ("https://www.awwwards.com/sites/c", none)]
       ↔ countOcc "https://www.awwwards.com/sites/b"
           (detailUrls
             [Ev.listing (listingURL 1),
              Ev.detail "https://www.awwwards.com/sites/a",
              Ev.detail "https://www.awwwards.com/sites/b",
              Ev.listing (listingURL 2),
              Ev.detail "https://www.awwwards.com/sites/c"]) = 1) :=
  (scrape_awwwards_dedup_once fetchDup [1, 2] 0 none "https://www.awwwards.com/sites/b").2
    [("https://www.awwwards.com/sites/a", none),
     ("https://www.awwwards.com/sites/b", none),
     ("https://www.awwwards.com/sites/c", none)]
    [Ev.listing (listingURL 1),
     Ev.detail "https://www.awwwards.com/sites/a",
     Ev.detail "https://www.awwwards.com/sites/b",
     Ev.listing (listingURL 2),
     Ev.detail "https://www.awwwards.com/sites/c"]
    (by decide)

/-- C2: a detail-page fetch failure is caught locally — the entry for that
URL is set to `none` and the loop proceeds to the next detail URL (when the
cap is not hit) — whereas a listing-page fetch failure is not caught and
aborts the whole crawl. -/
theorem scrape_awwwards_failure_isolation (fetch : String → Except Unit (List Anchor))
    (pages : List Int) (delay : ℚ) (ms : Option Int) :
    (∀ r tr, scrape_awwwards fetch pages delay ms = ScrapeOut.ok r tr →
      ∀ url v, (url, v) ∈ r → fetch url = Except.error () → v = none)
    ∧ (∀ page rest results tr, fetch (listingURL page) = Except.error () →
        runPages fetch delay ms (page :: rest) results tr
          = ScrapeOut.fail (tr ++ [Ev.listing (listingURL page)]))
    ∧ (∀ url rest results tr, fetch url = Except.error () → url ∉ keys results →
        capHit ms (results.length + 1) = false →
        runSites fetch delay ms (url :: rest) results tr
          = runSites fetch delay ms rest (results ++ [(url, none)])
              (addSleep delay (tr ++ [Ev.detail url]))) := by
  refine ⟨?_, ?_, ?_⟩
  · intro r tr hout url v hmem hferr
    have hg := scrape_good fetch pages delay ms
    rw [hout] at hg
    exact (hg : goodTrace fetch delay r tr).2.2.2.2 url v hmem hferr
  · intro page rest results tr hf
    simp [runPages, hf]
  · intro url rest results tr hferr hmem hcap
    have hentry : detailEntry fetch url = none := by
      unfold detailEntry
      rw [hferr]
    simp [runSites, hmem, hcap, hentry]

/-- C2 witness: in the fixture whose `/sites/a` detail fetch fails, the crawl
completes, `/sites/a` maps to `none`, and a crawl whose first listing fetch
fails aborts. -/
theorem scrape_awwwards_failure_isolation_witness :
    scrape_awwwards fetchDetailFail [1] 0 none = ScrapeOut.ok
      [("https://www.awwwards.com/sites/a", none),
       ("https://www.awwwards.com/sites/b", none)]
      [Ev.listing (listingURL 1), Ev.detail "https://www.awwwards.com/sites/a",
       Ev.detail "https://www.awwwards.com/sites/b"]
    ∧ (none : Option String) = none
    ∧ runPages fetchAllFail 0 none [1] [] []
        = ScrapeOut.fail [Ev.listing (listingURL 1)] := by
  refine ⟨by decide, ?_, ?_⟩
  · exact (scrape_awwwards_failure_isolation fetchDetailFail [1] 0 none).1
      [("https://www.awwwards.com/sites/a", none),
       ("https://www.awwwards.com/sites/b", none)]
      [Ev.listing (listingURL 1), Ev.detail "https://www.awwwards.com/sites/a",
       Ev.detail "https://www.awwwards.com/sites/b"]
      (by decide) "https://www.awwwards.com/sites/a" none (by decide) rfl
  · exact (scrape_awwwards_failure_isolation fetchAllFail [1] 0 none).2.1 1 [] [] [] rfl

theorem runSites_append (fetch : String → Except Unit (List Anchor)) (delay : ℚ)
    (ms : Option Int) :
    ∀ sites results tr, ∃ t,
      (runSites fetch delay ms sites results tr).1 = results ++ t := by
  intro sites
  induction sites with
  | nil =>
    intro results tr
    exact ⟨[], by simp [runSites]⟩
  | cons url rest ih =>
    intro results tr
    by_cases hmem : url ∈ keys results
    · have hstep : runSites fetch delay ms (url :: rest) results tr
          = runSites fetch delay ms rest results tr := by
        simp [runSites, hmem]
      rw [hstep]
      exact ih results tr
    · by_cases hcap : capHit ms (results.length + 1) = true
      · refine ⟨[(url, detailEntry fetch url)], ?_⟩
        simp [runSites, hmem, hcap]
      · have hstep : runSites fetch delay ms (url :: rest) results tr
            = runSites fetch delay ms rest (results ++ [(url, detailEntry fetch url)])
                (addSleep delay (tr ++ [Ev.detail url])) := by
          simp [runSites, hmem, hcap]
        rw [hstep]
        obtain ⟨t, ht⟩ := ih (results ++ [(url, detailEntry fetch url)])
          (addSleep delay (tr ++ [Ev.detail url]))
        exact ⟨[(url, detailEntry fetch url)] ++ t, by rw [ht, List.append_assoc]⟩

theorem runPages_append (fetch : String → Except Unit (List Anchor)) (delay : ℚ)
    (ms : Option Int) :
    ∀ pages results tr r tr',
      runPages fetch delay ms pages results tr = ScrapeOut.ok r tr' →
      ∃ t, r = results ++ t := by
  intro pages
  induction pages with
  | nil =>
    intro results tr r tr' h
    simp [runPages] at h
    exact ⟨[], by rw [List.append_nil]; exact h.1.symm⟩
  | cons page rest ih =>
    intro results tr r tr' h
    cases hf : fetch (listingURL page) with
    | error e => simp [runPages, hf] at h
    | ok doc =>
      simp only [runPages, hf] at h
      by_cases he : (runSites fetch delay ms (extract_site_links doc) results
          (tr ++ [Ev.listing (listingURL page)])).2.2 = true
      · rw [if_pos he] at h
        have h' : (runSites fetch delay ms (extract_site_links doc) results
            (tr ++ [Ev.listing (listingURL page)])).1 = r := by
          injection h
        obtain ⟨t, ht⟩ := runSites_append fetch delay ms (extract_site_links doc)
          results (tr ++ [Ev.listing (listingURL page)])
        exact ⟨t, by rw [← h', ht]⟩
      · rw [if_neg he] at h
        obtain ⟨t2, ht2⟩ := ih _ _ _ _ h
        obtain ⟨t1, ht1⟩ := runSites_append fetch delay ms (extract_site_links doc)
          results (tr ++ [Ev.listing (listingURL page)])
        exact ⟨t1 ++ t2, by rw [ht2, ht1, List.append_assoc]⟩

/-- C10: the empty page iterable yields the empty map and an empty trace (so
no fetch occurs at all); more generally the result map only grows by
appending new entries — never overwriting or deleting — and on a completed
crawl each key has exactly one entry. -/
theorem scrape_awwwards_empty_append_only (fetch : String → Except Unit (List Anchor))
    (delay : ℚ) (ms : Option Int) :
    scrape_awwwards fetch [] delay ms = ScrapeOut.ok [] []
    ∧ (∀ sites results tr, ∃ t,
        (runSites fetch delay ms sites results tr).1 = results ++ t)
    ∧ (∀ pages results tr r tr',
        runPages fetch delay ms pages results tr = ScrapeOut.ok r tr' →
        ∃ t, r = results ++ t)
    ∧ (∀ pages r tr, scrape_awwwards fetch pages delay ms = ScrapeOut.ok r tr →
        (keys r).Nodup) := by
  refine ⟨rfl, runSites_append fetch delay ms, runPages_append fetch delay ms, ?_⟩
  intro pages r tr hout
  have hg := scrape_good fetch pages delay ms
  rw [hout] at hg
  exact (hg : goodTrace fetch delay r tr).2.1

/-- C10 witness. -/
theorem scrape_awwwards_empty_append_only_witness :
    (∃ t, (runSites fetchOne 0 none ["https://www.awwwards.com/sites/a"] [] []).1
      = [] ++ t)
    ∧ (keys [("https://www.awwwards.com/sites/a", (none : Option String))]).Nodup :=
  ⟨(scrape_awwwards_empty_append_only fetchOne 0 none).2.1
     ["https://www.awwwards.com/sites/a"] [] [],
   (scrape_awwwards_empty_append_only fetchOne 0 none).2.2.2 [1]
     [("https://www.awwwards.com/sites/a", none)]
     [Ev.listing (listingURL 1), Ev.detail "https://www.awwwards.com/sites/a"]
     (by decide)⟩

/-- C8 amended: the sleep guard is Python truthiness (`delay != 0`), not
positivity.  On a completed crawl one sleep call follows each stored entry
exactly when the delay is nonzero — so no sleep for dedup hits, whose URLs
store no entry — and every sleep call carries the configured delay. -/
theorem scrape_awwwards_sleep_guard (fetch : String → Except Unit (List Anchor))
    (pages : List Int) (delay : ℚ) (ms : Option Int)
    (r : List (String × Option String)) (tr : List Ev)
    (hout : scrape_awwwards fetch pages delay ms = ScrapeOut.ok r tr) :
    sleepCount tr = (if delay = 0 then 0 else r.length)
    ∧ (∀ d, Ev.sleep d ∈ tr → d = delay) := by
  have hg := scrape_good fetch pages delay ms
  rw [hout] at hg
  exact ⟨(hg : goodTrace fetch delay r tr).2.2.1, hg.2.2.2.1⟩

/-- C8 counterexample: with `delay = -1` — truthy but not positive — the
crawl still issues a sleep call after storing an entry, refuting "a
suspension occurs iff the delay is positive". -/
theorem scrape_awwwards_negative_delay_sleep_cex :
    scrape_awwwards fetchOne [1] (-1) none = ScrapeOut.ok
      [("https://www.awwwards.com/sites/a", none)]
      [Ev.listing (listingURL 1), Ev.detail "https://www.awwwards.com/sites/a",
       Ev.sleep (-1)]
    ∧ Ev.sleep (-1) ∈ (scrape_awwwards fetchOne [1] (-1) none).trace
    ∧ ¬((-1 : ℚ) > 0) :=
  ⟨by decide, by decide, by decide⟩

/-- C8 amended witness: with `delay = 1` the completed one-entry crawl slept
exactly once, with argument 1. -/
theorem scrape_awwwards_sleep_guard_witness :
    sleepCount [Ev.listing (listingURL 1),
                Ev.detail "https://www.awwwards.com/sites/a", Ev.sleep 1]
      = (if (1 : ℚ) = 0 then 0
         else [("https://www.awwwards.com/sites/a", (none : Option String))].length)
    ∧ (∀ d, Ev.sleep d ∈ [Ev.listing (listingURL 1),
        Ev.detail "https://www.awwwards.com/sites/a", Ev.sleep 1] → d = 1) :=
  scrape_awwwards_sleep_guard fetchOne [1] 1 none
    [("https://www.awwwards.com/sites/a", none)]
    [Ev.listing (listingURL 1), Ev.detail "https://www.awwwards.com/sites/a",
     Ev.sleep 1]
    (by decide)

theorem runSites_len (fetch : String → Except Unit (List Anchor)) (delay : ℚ)
    (m : Int) (hm : 1 ≤ m) :
    ∀ sites results tr, (results.length : Int) < m →
      ((runSites fetch delay (some m) sites results tr).2.2 = true →
        ((runSites fetch delay (some m) sites results tr).1.length : Int) ≤ m)
      ∧ ((runSites fetch delay (some m) sites results tr).2.2 = false →
        ((runSites fetch delay (some m) sites results tr).1.length : Int) < m) := by
  intro sites
  induction sites with
  | nil =>
    intro results tr hlen
    refine ⟨?_, ?_⟩
    · intro he
      simp [runSites] at he
    · intro _
      simpa [runSites] using hlen
  | cons url rest ih =>
    intro results tr hlen
    by_cases hmem : url ∈ keys results
    · have hstep : runSites fetch delay (some m) (url :: rest) results tr
          = runSites fetch delay (some m) rest results tr := by
        simp [runSites, hmem]
      rw [hstep]
      exact ih results tr hlen
    · by_cases hcap : capHit (some m) (results.length + 1) = true
      · have hstep : runSites fetch delay (some m) (url :: rest) results tr
            = (results ++ [(url, detailEntry fetch url)],
               addSleep delay (tr ++ [Ev.detail url]), true) := by
          simp [runSites, hmem, hcap]
        rw [hstep]
        refine ⟨?_, ?_⟩
        · intro _
          simp only [List.length_append, List.length_cons, List.length_nil]
          push_cast
          omega
        · intro hfalse
          simp at hfalse
      · have hstep : runSites fetch delay (some m) (url :: rest) results tr
            = runSites fetch delay (some m) rest
                (results ++ [(url, detailEntry fetch url)])
                (addSleep delay (tr ++ [Ev.detail url])) := by
          simp [runSites, hmem, hcap]
        rw [hstep]
        apply ih
        simp only [capHit, Bool.and_eq_true, bne_iff_ne, ne_eq, decide_eq_true_eq,
          not_and, not_le] at hcap
        simp only [List.length_append, List.length_cons, List.length_nil]
        have hmne : m ≠ 0 := by omega
        have := hcap hmne
        push_cast
        push_cast at this
        omega

theorem runPages_len (fetch : String → Except Unit (List Anchor)) (delay : ℚ)
    (m : Int) (hm : 1 ≤ m) :
    ∀ pages results tr r tr', (results.length : Int) < m →
      runPages fetch delay (some m) pages results tr = ScrapeOut.ok r tr' →
      (r.length : Int) ≤ m := by
  intro pages
  induction pages with
  | nil =>
    intro results tr r tr' hlen h
    simp [runPages] at h
    rw [← h.1]
    omega
  | cons page rest ih =>
    intro results tr r tr' hlen h
    cases hf : fetch (listingURL page) with
    | error e => simp [runPages, hf] at h
    | ok doc =>
      simp only [runPages, hf] at h
      by_cases he : (runSites fetch delay (some m) (extract_site_links doc) results
          (tr ++ [Ev.listing (listingURL page)])).2.2 = true
      · rw [if_pos he] at h
        have h' : (runSites fetch delay (some m) (extract_site_links doc) results
            (tr ++ [Ev.listing (listingURL page)])).1 = r := by
          injection h
        rw [← h']
        exact (runSites_len fetch delay m hm (extract_site_links doc) results
          (tr ++ [Ev.listing (listingURL page)]) hlen).1 he
      · rw [if_neg he] at h
        have hlt := (runSites_len fetch delay m hm (extract_site_links doc) results
          (tr ++ [Ev.listing (listingURL page)]) hlen).2 (Bool.eq_false_iff.2 he)
        exact ih _ _ _ _ hlt h

/-- C1 amended: when `max_items` is set to a positive integer, the returned
map has at most that many entries (the crawl returns as soon as the cap is
reached, mid-page); `max_items = 0`, though "set", is falsy in Python and
disables the cap entirely. -/
theorem scrape_awwwards_cap_bound (fetch : String → Except Unit (List Anchor))
    (pages : List Int) (delay : ℚ) (m : Int)
    (r : List (String × Option String)) (tr : List Ev) (hm : 1 ≤ m)
    (hout : scrape_awwwards fetch pages delay (some m) = ScrapeOut.ok r tr) :
    (r.length : Int) ≤ m :=
  runPages_len fetch delay m hm pages [] [] r tr (by simp; omega) hout

/-- C1 counterexample: `max_items = 0` is "set", yet the returned map has one
entry — more than the cap — because `if max_sites and ...` treats `0` as
falsy and never stops the crawl. -/
theorem scrape_awwwards_cap_zero_cex :
    scrape_awwwards fetchOne [1] 0 (some 0) = ScrapeOut.ok
      [("https://www.awwwards.com/sites/a", none)]
      [Ev.listing (listingURL 1), Ev.detail "https://www.awwwards.com/sites/a"]
    ∧ ¬(([("https://www.awwwards.com/sites/a", (none : Option String))].length : Int)
        ≤ 0) :=
  ⟨by decide, by decide⟩

/-- C1 amended witness: with `max_items = 2` and five distinct detail URLs
across two pages, the crawl stops mid-page with exactly two entries. -/
theorem scrape_awwwards_cap_bound_witness :
    ((1 : Int) ≤ 2)
    ∧ scrape_awwwards fetchFive [1, 2] 0 (some 2) = ScrapeOut.ok
        [("https://www.awwwards.com/sites/a", none),
         ("https://www.awwwards.com/sites/b", none)]
        [Ev.listing (listingURL 1), Ev.detail "https://www.awwwards.com/sites/a",
         Ev.detail "https://www.awwwards.com/sites/b"]
    ∧ (([("https://www.awwwards.com/sites/a", (none : Option String)),
         ("https://www.awwwards.com/sites/b", none)].length : Int) ≤ 2)
    ∧ [("https://www.awwwards.com/sites/a", (none : Option String)),
       ("https://www.awwwards.com/sites/b", none)].length = 2 := by
  refine ⟨by decide, by decide, ?_, by decide⟩
  exact scrape_awwwards_cap_bound fetchFive [1, 2] 0 2
    [("https://www.awwwards.com/sites/a", none),
     ("https://www.awwwards.com/sites/b", none)]
    [Ev.listing (listingURL 1), Ev.detail "https://www.awwwards.com/sites/a",
     Ev.detail "https://www.awwwards.com/sites/b"]
    (by decide) (by decide)

/-- C9 amended: an invalid page range (start < 1, or effective end < start
with the end defaulting to the start) yields the usage error on standard
error with exit code 1, independently of the fetch oracle (so before any
network activity) and with no output produced; for a valid range a crawl
that completes returns its map with exit code 0, while an uncaught
listing-fetch failure propagates and the process exits with code 1, not 0. -/
theorem main_model_range_validation (fetch : String → Except Unit (List Anchor))
    (start_page : Int) (end_page : Option Int) (delay : ℚ) (ms : Option Int) :
    ((start_page < 1 ∨ end_page.getD start_page < start_page) →
      main_model fetch start_page end_page delay ms
        = MainOut.usageError "Invalid page range provided."
      ∧ exitCode (main_model fetch start_page end_page delay ms) = 1
      ∧ ∀ fetch', main_model fetch' start_page end_page delay ms
          = main_model fetch start_page end_page delay ms)
    ∧ (¬(start_page < 1 ∨ end_page.getD start_page < start_page) →
      (∀ r tr, scrape_awwwards fetch
          (pageRange start_page (end_page.getD start_page)) delay ms
          = ScrapeOut.ok r tr →
        main_model fetch start_page end_page delay ms = MainOut.finished r
        ∧ exitCode (main_model fetch start_page end_page delay ms) = 0)
      ∧ (∀ tr, scrape_awwwards fetch
          (pageRange start_page (end_page.getD start_page)) delay ms
          = ScrapeOut.fail tr →
        main_model fetch start_page end_page delay ms = MainOut.crashed tr
        ∧ exitCode (main_model fetch start_page end_page delay ms) = 1)) := by
  constructor
  · intro hbad
    have h1 : ∀ f : String → Except Unit (List Anchor),
        main_model f start_page end_page delay ms
          = MainOut.usageError "Invalid page range provided." := by
      intro f
      simp [main_model, hbad]
    refine ⟨h1 fetch, by rw [h1 fetch]; rfl, fun fetch' => by rw [h1 fetch', h1 fetch]⟩
  · intro hgood
    constructor
    · intro r tr hout
      have h1 : main_model fetch start_page end_page delay ms = MainOut.finished r := by
        simp [main_model, hgood, hout]
      exact ⟨h1, by rw [h1]; rfl⟩
    · intro tr hout
      have h1 : main_model fetch start_page end_page delay ms = MainOut.crashed tr := by
        simp [main_model, hgood, hout]
      exact ⟨h1, by rw [h1]; rfl⟩

/-- C9 counterexample: the range start = end = 1 is valid, yet with a failing
listing fetch the exception propagates out of `main` and the exit code is 1,
refuting "for every valid page range the exit code is 0". -/
theorem main_model_fetch_failure_exit_cex :
    ¬((1 : Int) < 1 ∨ (Option.getD none 1 : Int) < 1)
    ∧ main_model fetchAllFail 1 none 0 none
        = MainOut.crashed [Ev.listing (listingURL 1)]
    ∧ exitCode (main_model fetchAllFail 1 none 0 none) ≠ 0 :=
  ⟨by decide, by decide, by decide⟩

/-- C9 amended witness: start page 0 is rejected with exit code 1 for any
oracle, and the valid single-page range with a completing crawl exits 0. -/
theorem main_model_range_validation_witness :
    (main_model fetchAllFail 0 none 0 none
        = MainOut.usageError "Invalid page range provided."
      ∧ exitCode (main_model fetchAllFail 0 none 0 none) = 1
      ∧ ∀ fetch', main_model fetch' 0 none 0 none
          = main_model fetchAllFail 0 none 0 none)
    ∧ (main_model fetchOne 1 none 0 none
        = MainOut.finished [("https://www.awwwards.com/sites/a", none)]
      ∧ exitCode (main_model fetchOne 1 none 0 none) = 0) :=
  ⟨(main_model_range_validation fetchAllFail 0 none 0 none).1 (by decide),
   ((main_model_range_validation fetchOne 1 none 0 none).2 (by decide)).1
     [("https://www.awwwards.com/sites/a", none)]
     [Ev.listing (listingURL 1), Ev.detail "https://www.awwwards.com/sites/a"]
     (by decide)⟩
